import Mathlib

/-!
Verification of the fixed-width record codec `gofixedwidth`
(github.com/hduplooy/gofixedwidth, 2018 revision).

The Go source is shallowly embedded: byte streams are `List Nat` (one `Nat`
per byte), Go strings are byte lists, Go `int` is `Int`, and fallible
operations return an explicit result type with an `err` and a `panic`
outcome (Go run-time panics such as out-of-range indexing are modelled by
the `panic` constructor).  The buffered stream (`bufio`) is modelled as a
list of the remaining bytes: `ReadString(delim)` splits at the first
occurrence of the delimiter, `Read(buf)` takes up to `len(buf)` bytes, and
writes always succeed, accumulating an output byte list.
-/

namespace GoFixedWidth

/-- The error values of the package (`ErrFieldCount`, `ErrNoFields`,
`ErrFieldLengthError`, `ErrIncorrectLineWidth`, `ErrNotEnoughLines`), the
ad-hoc errors created inline (`"CRLF not found at end of line"`,
`"Nothing to return"`), `io.EOF` (whose Go message is exactly `"EOF"`),
and the wrapper `*ParseError` carrying line and column. -/
inductive Err where
  | eof
  | errFieldCount
  | errNoFields
  | errFieldLengthError
  | errIncorrectLineWidth
  | errNotEnoughLines
  | crlfNotFound
  | nothingToReturn
  | parseErr (line col : Int) (inner : Err)
deriving DecidableEq, Repr

/-- `Error() == "EOF"` holds exactly for `io.EOF`: every other error of the
package has a different message, and a `*ParseError` message starts with
`"line "`. -/
def isEOFMsg : Err → Bool
  | .eof => true
  | _ => false

/-- Outcome of a fallible computation: a value, a returned Go error, or a
run-time panic. -/
inductive Res (α : Type) where
  | ok (a : α)
  | err (e : Err)
  | panic
deriving DecidableEq, Repr

/-- The `Reader` struct.  Unexported fields keep their Go zero values as
defaults.  `width` is a `Nat` because the code only ever stores
non-negative values in it (`Init` clamps the skips and adds positive
lengths). -/
structure Reader where
  comment : Nat := 0
  skipLines : Int := 0
  skipStart : Int := 0
  skipEnd : Int := 0
  fieldLengths : List Int := []
  fieldAlign : Option (List Int) := none
  trimFields : Bool := false
  hasEOL : Nat := 0
  width : Nat := 0
  line : Int := 0
  column : Int := 0
  initialskipdone : Bool := false
deriving DecidableEq, Repr

/-- The `Writer` struct, with Go zero values as defaults. -/
structure Writer where
  comment : Nat := 0
  skipStart : Int := 0
  skipEnd : Int := 0
  fieldLengths : List Int := []
  fieldAlign : Option (List Int) := none
  hasEOL : Nat := 0
  trimFields : Bool := false
  width : Nat := 0
  line : Int := 0
  column : Int := 0
deriving DecidableEq, Repr

/-- `EOLNONE = 0`, `EOLCR = 1`, `EOLLF = 2`, `EOLCRLF = 3`;
`ALIGNLEFT = 0`, `ALIGNRIGHT = 1`. -/
def EOLNONE : Nat := 0

def EOLCR : Nat := 1

def EOLLF : Nat := 2

def EOLCRLF : Nat := 3

def ALIGNLEFT : Int := 0

def ALIGNRIGHT : Int := 1

/-- `bufio.ReadString(b)`: split the stream at the first occurrence of byte
`b`.  `some (pre, post)` means the delimiter was found after `pre`;
`none` means end of stream was reached first (`io.EOF`). -/
def splitAtByte (b : Nat) : List Nat → Option (List Nat × List Nat)
  | [] => none
  | x :: xs =>
    if x = b then some ([], xs)
    else
      match splitAtByte b xs with
      | none => none
      | some (pre, post) => some (x :: pre, post)

theorem splitAtByte_eq_some {b : Nat} :
    ∀ {s pre post : List Nat}, splitAtByte b s = some (pre, post) →
      s = pre ++ b :: post := by
  intro s
  induction s with
  | nil => intro pre post h; simp [splitAtByte] at h
  | cons x xs ih =>
    intro pre post h
    by_cases hx : x = b
    · simp [splitAtByte, hx] at h
      simp [hx, h.1.symm, h.2.symm]
    · simp [splitAtByte, hx] at h
      rcases hsp : splitAtByte b xs with _ | ⟨pre', post'⟩
      · rw [hsp] at h; simp at h
      · rw [hsp] at h
        simp at h
        rcases h with ⟨h1, h2⟩
        subst h1; subst h2
        simp [ih hsp]

theorem splitAtByte_not_mem {b : Nat} :
    ∀ {pre post : List Nat}, b ∉ pre →
      splitAtByte b (pre ++ b :: post) = some (pre, post) := by
  intro pre
  induction pre with
  | nil => intro post _; simp [splitAtByte]
  | cons x xs ih =>
    intro post h
    have hx : x ≠ b := by intro hc; exact h (by simp [hc])
    have hxs : b ∉ xs := by intro hc; exact h (by simp [hc])
    simp only [List.cons_append, splitAtByte, if_neg hx, List.append_eq, ih hxs]

/-- `Reader.readLine`: read the next raw line according to `HasEOL`.
On success returns the line together with the remaining stream.
In `EOLCR`/`EOLLF` mode the delimiter byte is stripped
(`tmp[:len(tmp)-1]`); in `EOLCRLF` mode, when the byte after the CR is a
LF the code returns `tmp` unchanged, i.e. *still containing the CR*; in
`EOLNONE` mode exactly `width` bytes are taken (`r.r.Read` into a
`width`-sized buffer, short reads leaving zero bytes, the count `n` being
ignored). -/
def readLine (r : Reader) (s : List Nat) : Res (List Nat × List Nat) :=
  if r.hasEOL = EOLCR then
    match splitAtByte 13 s with
    | none => .err .eof
    | some (pre, post) => .ok (pre, post)
  else if r.hasEOL = EOLLF then
    match splitAtByte 10 s with
    | none => .err .eof
    | some (pre, post) => .ok (pre, post)
  else if r.hasEOL = EOLCRLF then
    match splitAtByte 13 s with
    | none => .err .eof
    | some (pre, post) =>
      match post with
      | [] => .err .eof
      | b :: rest => if b = 10 then .ok (pre ++ [13], rest) else .err .crlfNotFound
  else if r.hasEOL = EOLNONE then
    if r.width = 0 then .ok ([], s)
    else if s = [] then .err .eof
    else .ok (s.take r.width ++ List.replicate (r.width - s.length) 0, s.drop r.width)
  else .err .nothingToReturn

/-- A successful `readLine` never grows the stream. -/
theorem readLine_le {r : Reader} {s tmp s1 : List Nat}
    (h : readLine r s = .ok (tmp, s1)) : s1.length ≤ s.length := by
  unfold readLine at h
  by_cases h1 : r.hasEOL = EOLCR
  · simp only [h1, if_true] at h
    rcases hsp : splitAtByte 13 s with _ | ⟨pre, post⟩ <;> rw [hsp] at h
    · simp at h
    · simp at h
      have := splitAtByte_eq_some hsp
      subst this
      simp [← h.2]
      omega
  · simp only [h1, if_false] at h
    by_cases h2 : r.hasEOL = EOLLF
    · simp only [h2, if_true] at h
      rcases hsp : splitAtByte 10 s with _ | ⟨pre, post⟩ <;> rw [hsp] at h
      · simp at h
      · simp at h
        have := splitAtByte_eq_some hsp
        subst this
        simp [← h.2]
        omega
    · simp only [h2, if_false] at h
      by_cases h3 : r.hasEOL = EOLCRLF
      · simp only [h3, if_true] at h
        rcases hsp : splitAtByte 13 s with _ | ⟨pre, post⟩ <;> rw [hsp] at h
        · simp at h
        · rcases post with _ | ⟨b, rest⟩
          · simp at h
          · by_cases hb : b = 10
            · simp [hb] at h
              have := splitAtByte_eq_some hsp
              subst this
              simp [← h.2]
              omega
            · simp [hb] at h
      · simp only [h3, if_false] at h
        by_cases h4 : r.hasEOL = EOLNONE
        · simp only [h4, if_true] at h
          by_cases hw : r.width = 0
          · simp [hw] at h
            simp [← h.2]
          · simp only [hw, if_false] at h
            by_cases hs : s = []
            · simp [hs] at h
            · simp [hs] at h
              simp [← h.2]
        · simp [h4] at h

/-- A successful `readLine` returning a non-empty line strictly consumes
stream bytes. -/
theorem readLine_consume {r : Reader} {s tmp s1 : List Nat}
    (h : readLine r s = .ok (tmp, s1)) (hne : tmp ≠ []) :
    s1.length < s.length := by
  unfold readLine at h
  by_cases h1 : r.hasEOL = EOLCR
  · simp only [h1, if_true] at h
    rcases hsp : splitAtByte 13 s with _ | ⟨pre, post⟩ <;> rw [hsp] at h
    · simp at h
    · simp at h
      have := splitAtByte_eq_some hsp
      subst this
      simp [← h.2]
      omega
  · simp only [h1, if_false] at h
    by_cases h2 : r.hasEOL = EOLLF
    · simp only [h2, if_true] at h
      rcases hsp : splitAtByte 10 s with _ | ⟨pre, post⟩ <;> rw [hsp] at h
      · simp at h
      · simp at h
        have := splitAtByte_eq_some hsp
        subst this
        simp [← h.2]
        omega
    · simp only [h2, if_false] at h
      by_cases h3 : r.hasEOL = EOLCRLF
      · simp only [h3, if_true] at h
        rcases hsp : splitAtByte 13 s with _ | ⟨pre, post⟩ <;> rw [hsp] at h
        · simp at h
        · rcases post with _ | ⟨b, rest⟩
          · simp at h
          · by_cases hb : b = 10
            · simp [hb] at h
              have := splitAtByte_eq_some hsp
              subst this
              simp [← h.2]
              omega
            · simp [hb] at h
      · simp only [h3, if_false] at h
        by_cases h4 : r.hasEOL = EOLNONE
        · simp only [h4, if_true] at h
          by_cases hw : r.width = 0
          · simp [hw] at h
            exact absurd h.1 hne

          · simp only [hw, if_false] at h
            by_cases hs : s = []
            · simp [hs] at h
            · simp [hs] at h
              rw [← h.2]
              have : 0 < s.length := List.length_pos.mpr hs
              simp
              omega
        · simp [h4] at h

end GoFixedWidth

namespace GoFixedWidth

/-- The comment-skipping loop inside `parseRecord`:
`for rune(tmp[0]) == r.Comment { tmp, err = r.readLine(); ... }`.
Each iteration reads the next raw line; evaluating `tmp[0]` on an empty
line is an index-out-of-range panic.  Entered only when the previous line
was non-empty and started with the comment rune. -/
def commentLoop (r : Reader) (s : List Nat) : Res (List Nat × List Nat) :=
  match h : readLine r s with
  | .err e => .err e
  | .panic => .panic
  | .ok (tmp, s1) =>
    if htmp : tmp = [] then .panic
    else if tmp.head! = r.comment then commentLoop r s1
    else .ok (tmp, s1)
termination_by s.length
decreasing_by exact readLine_consume h htmp

/-- The comment block of `parseRecord`, applied to the first raw line read:
`if r.Comment != 0 && rune(tmp[0]) == r.Comment { for ... }`.
The `&&` short-circuits, so `tmp[0]` (a panic on an empty line) is only
evaluated when a comment rune is configured. -/
def afterComment (r : Reader) (tmp s1 : List Nat) : Res (List Nat × List Nat) :=
  if r.comment ≠ 0 then
    if tmp = [] then .panic
    else if tmp.head! = r.comment then commentLoop r s1
    else .ok (tmp, s1)
  else .ok (tmp, s1)

/-- `strings.Trim(field, " \t")`: drop leading and trailing space/tab
bytes. -/
def trimP (b : Nat) : Bool := b = 32 || b = 9

/-- Remove leading and trailing space and tab bytes. -/
def trimST (l : List Nat) : List Nat :=
  ((l.dropWhile trimP).reverse.dropWhile trimP).reverse

/-- Go slice expression `l[a:b]` on a string: panics unless
`0 ≤ a ≤ b ≤ len(l)`. -/
def goSlice (l : List Nat) (a b : Int) : Res (List Nat) :=
  if 0 ≤ a ∧ a ≤ b ∧ b ≤ (l.length : Int) then
    .ok ((l.drop a.toNat).take (b - a).toNat)
  else .panic

/-- The field-extraction loop of `parseRecord`:
`curpos := r.SkipStart; for _, val := range r.FieldLengths { field :=
string(tmp[curpos:curpos+val]); if r.TrimFields { field = strings.Trim(...) };
curpos += val }`. -/
def sliceFields (r : Reader) (tmp : List Nat) : Int → List Int → Res (List (List Nat))
  | _, [] => .ok []
  | curpos, val :: rest =>
    match goSlice tmp curpos (curpos + val) with
    | .panic => .panic
    | .err e => .err e
    | .ok fieldBytes =>
      let field := if r.trimFields then trimST fieldBytes else fieldBytes
      match sliceFields r tmp (curpos + val) rest with
      | .ok fs => .ok (field :: fs)
      | .err e => .err e
      | .panic => .panic

/-- The tail of `parseRecord` after comment skipping: the raw-line width
check, the embedded CR/LF scan, and field extraction. -/
def processLine (r : Reader) (tmp s : List Nat) : Res (List (List Nat) × List Nat) :=
  if tmp.length ≠ r.width then .err .errIncorrectLineWidth
  else if tmp.any (fun v => v = 13 || v = 10) then .err .errIncorrectLineWidth
  else
    match sliceFields r tmp r.skipStart r.fieldLengths with
    | .ok fs => .ok (fs, s)
    | .err e => .err e
    | .panic => .panic

/-- `Reader.parseRecord`: read a raw line, skip comment lines, then
validate and slice it. -/
def parseRecord (r : Reader) (s : List Nat) : Res (List (List Nat) × List Nat) :=
  match readLine r s with
  | .err e => .err e
  | .panic => .panic
  | .ok (tmp, s1) =>
    match afterComment r tmp s1 with
    | .err e => .err e
    | .panic => .panic
    | .ok (tmp2, s2) => processLine r tmp2 s2

/-- `Reader.skipInitialLines`: discard `SkipLines` raw lines (the loop
`for i := 0; i < r.SkipLines; i++` runs `max SkipLines 0` times). -/
def skipInitialLines (r : Reader) : Nat → List Nat → Res (List Nat)
  | 0, s => .ok s
  | n + 1, s =>
    match readLine r s with
    | .err e => .err e
    | .panic => .panic
    | .ok (_, s1) => skipInitialLines r n s1

/-- `Reader.Read`: run the initial line skip once (failures there wrapped
by `r.error`), then `parseRecord` (whose failures are returned
unwrapped). -/
def Reader.Read (r : Reader) (s : List Nat) : Res (List (List Nat) × List Nat) :=
  if r.initialskipdone then parseRecord r s
  else
    match skipInitialLines r r.skipLines.toNat s with
    | .err e => .err (.parseErr r.line r.column e)
    | .panic => .panic
    | .ok s1 => parseRecord r s1

/-- Result of the multi-record readers: the gathered records plus either
success, a returned error, a panic, or divergence of the unbounded Go
loop (only used as the out-of-fuel marker). -/
inductive AllRes where
  | done (recs : List (List (List Nat))) (e : Option Err)
  | panic
  | diverge
deriving DecidableEq, Repr

/-- The loop of `Reader.ReadRows`: `numOfRows` iterations of
`parseRecord`, each failure wrapped by `r.error` and returned together
with the records gathered so far. -/
def readRowsLoop (r : Reader) : Nat → List Nat → List (List (List Nat)) → AllRes
  | 0, _, acc => .done acc.reverse none
  | n + 1, s, acc =>
    match parseRecord r s with
    | .err e => .done acc.reverse (some (.parseErr r.line r.column e))
    | .panic => .panic
    | .ok (rec, s1) => readRowsLoop r n s1 (rec :: acc)

/-- `Reader.ReadRows`. -/
def Reader.ReadRows (r : Reader) (numOfRows : Int) (s : List Nat) : AllRes :=
  if r.initialskipdone then readRowsLoop r numOfRows.toNat s []
  else
    match skipInitialLines r r.skipLines.toNat s with
    | .err e => .done [] (some (.parseErr r.line r.column e))
    | .panic => .panic
    | .ok s1 => readRowsLoop r numOfRows.toNat s1 []

/-- The unbounded loop of `Reader.ReadAll`: on a `parseRecord` failure,
`if err.Error() == "EOF" { err = nil }; return result, err` — EOF ends the
loop as success, any other failure is returned unwrapped together with the
records gathered so far.  `fuel` bounds the iterations of the Go `for`
loop; running out of fuel marks divergence. -/
def readAllLoop (r : Reader) : Nat → List Nat → List (List (List Nat)) → AllRes
  | 0, _, _ => .diverge
  | fuel + 1, s, acc =>
    match parseRecord r s with
    | .err e => .done acc.reverse (if isEOFMsg e then none else some e)
    | .panic => .panic
    | .ok (rec, s1) => readAllLoop r fuel s1 (rec :: acc)

/-- `Reader.ReadAll`.  A stream of `n` bytes supports at most `n`
consuming loop iterations, so `n + 1` fuel is exact whenever every
successful `parseRecord` consumes at least one byte. -/
def Reader.ReadAll (r : Reader) (s : List Nat) : AllRes :=
  if r.initialskipdone then readAllLoop r (s.length + 1) s []
  else
    match skipInitialLines r r.skipLines.toNat s with
    | .err e => .done [] (some (.parseErr r.line r.column e))
    | .panic => .panic
    | .ok s1 => readAllLoop r (s1.length + 1) s1 []

/-- The width-accumulation loop shared by `Reader.Init` and `Writer.Init`:
`for _, val := range FieldLengths { if val <= 0 { return ErrFieldLengthError };
width += val }` — the width accumulated so far is kept on early exit. -/
def initWidthLoop : Nat → List Int → Nat × Option Err
  | acc, [] => (acc, none)
  | acc, v :: vs =>
    if v ≤ 0 then (acc, some .errFieldLengthError) else initWidthLoop (acc + v.toNat) vs

/-- `Reader.Init`: clamp negative skips, recompute `width`, fail on an
empty or non-positive field-length list, and materialize a default
all-left `FieldAlign` when none is present.  Returns the mutated struct
together with the returned error. -/
def Reader.Init (r : Reader) : Reader × Option Err :=
  let ss := if r.skipStart < 0 then 0 else r.skipStart
  let se := if r.skipEnd < 0 then 0 else r.skipEnd
  let base := (ss + se).toNat
  let r1 : Reader := { r with skipStart := ss, skipEnd := se, width := base }
  if r.fieldLengths = [] then (r1, some .errNoFields)
  else
    match initWidthLoop base r.fieldLengths with
    | (wd, some e) => ({ r1 with width := wd }, some e)
    | (wd, none) =>
      let r2 : Reader := { r1 with width := wd }
      match r.fieldAlign with
      | none => ({ r2 with fieldAlign := some (List.replicate r.fieldLengths.length ALIGNLEFT) }, none)
      | some _ => (r2, none)

/-- `NewReader`: zero struct with `HasEOL: EOLCRLF`, then `Init()` with
its error discarded. -/
def NewReader : Reader := (Reader.Init { hasEOL := EOLCRLF }).1

end GoFixedWidth

namespace GoFixedWidth

/-- `Writer.outputSpaces(n)`: emit `n` space bytes (none when `n ≤ 0`). -/
def spaces (n : Int) : List Nat := List.replicate n.toNat 32

/-- Result of a write call: success, a returned Go error, or a panic. -/
inductive WRes where
  | ok
  | err (e : Err)
  | panic
deriving DecidableEq, Repr

/-- The line-ending block shared by `Writer.Write` and
`Writer.WriteComment`: `if HasEOL != EOLNONE { if CR or CRLF write 13;
if LF or CRLF write 10 }`. -/
def eolBytes (mode : Nat) : List Nat :=
  if mode ≠ EOLNONE then
    (if mode = EOLCR ∨ mode = EOLCRLF then [13] else []) ++
      (if mode = EOLLF ∨ mode = EOLCRLF then [10] else [])
  else []

/-- `w.FieldAlign[i]`: `none` models the index-out-of-range panic (a `nil`
slice indexes like an empty one). -/
def alignAt (a : Option (List Int)) (i : Nat) : Option Int := (a.getD []).get? i

/-- The per-field loop of `Writer.Write`.  `out` is the byte list emitted
so far.  An oversized field (`len(buf) > FieldLengths[i]`) fails with
`ErrFieldLengthError` unless `TrimFields` is set, in which case
`buf[0:FieldLengths[i]]` is written (a panic when the length is negative);
a fitting field is padded with spaces before it when `FieldAlign[i]` is
`ALIGNRIGHT` and after it when `ALIGNLEFT`. -/
def writeFieldsLoop (w : Writer) :
    List (List Nat) → List Int → Nat → List Nat → List Nat × WRes
  | [], _, _, out => (out, .ok)
  | f :: fs, l :: ls, i, out =>
    if (f.length : Int) > l then
      if !w.trimFields then (out, .err .errFieldLengthError)
      else if l < 0 then (out, .panic)
      else writeFieldsLoop w fs ls (i + 1) (out ++ f.take l.toNat)
    else
      match alignAt w.fieldAlign i with
      | none => (out, .panic)
      | some a =>
        writeFieldsLoop w fs ls (i + 1)
          (out ++ (if a = ALIGNRIGHT then spaces (l - f.length) else []) ++ f ++
            (if a = ALIGNLEFT then spaces (l - f.length) else []))
  | _ :: _, [], _, out => (out, .panic)

/-- `Writer.Write`: emit `SkipStart` spaces, check the field count, run the
per-field loop, then emit `SkipEnd` spaces and the line ending.  Returns
the emitted bytes together with the result. -/
def Writer.Write (w : Writer) (flds : List (List Nat)) : List Nat × WRes :=
  let out0 := spaces w.skipStart
  if flds.length ≠ w.fieldLengths.length then (out0, .err .errFieldCount)
  else
    match writeFieldsLoop w flds w.fieldLengths 0 out0 with
    | (out, WRes.ok) => (out ++ spaces w.skipEnd ++ eolBytes w.hasEOL, .ok)
    | (out, res) => (out, res)

/-- `Writer.Init`: identical to `Reader.Init`. -/
def Writer.Init (w : Writer) : Writer × Option Err :=
  let ss := if w.skipStart < 0 then 0 else w.skipStart
  let se := if w.skipEnd < 0 then 0 else w.skipEnd
  let base := (ss + se).toNat
  let w1 : Writer := { w with skipStart := ss, skipEnd := se, width := base }
  if w.fieldLengths = [] then (w1, some .errNoFields)
  else
    match initWidthLoop base w.fieldLengths with
    | (wd, some e) => ({ w1 with width := wd }, some e)
    | (wd, none) =>
      let w2 : Writer := { w1 with width := wd }
      match w.fieldAlign with
      | none => ({ w2 with fieldAlign := some (List.replicate w.fieldLengths.length ALIGNLEFT) }, none)
      | some _ => (w2, none)

/-- `NewWriter`: zero struct with `HasEOL: EOLCR`, then `Init()` with its
error discarded. -/
def NewWriter : Writer := (Writer.Init { hasEOL := EOLCR }).1

/-- `Writer.WriteComment(line)`: nothing happens without a comment rune.
Otherwise the rune is written (one byte for an ASCII rune), the text is
truncated by `line[0 : w.width-1]` when `len(line)+1 > w.width` (a panic
when `w.width = 0`, since the slice bound is `-1`), padded with
`w.width - len(line) - 1` spaces when `len(line)+1 < w.width`, and the
line ending is emitted. -/
def Writer.WriteComment (w : Writer) (text : List Nat) : List Nat × WRes :=
  if w.comment ≠ 0 then
    if (text.length : Int) + 1 > (w.width : Int) then
      if (w.width : Int) - 1 < 0 then ([w.comment], .panic)
      else ([w.comment] ++ text.take (w.width - 1) ++ eolBytes w.hasEOL, .ok)
    else
      ([w.comment] ++ text ++
        (if (text.length : Int) + 1 < (w.width : Int) then
          spaces ((w.width : Int) - text.length - 1)
        else []) ++ eolBytes w.hasEOL, .ok)
  else ([], .ok)

/-- Spec-side description of the bytes `Writer.Write` emits for one field:
the first `l` bytes when oversized (with trimming), otherwise the field
padded with spaces on the side opposite its alignment. -/
def cellOf (trim : Bool) (f : List Nat) (l : Int) (a : Int) : List Nat :=
  if (f.length : Int) > l then
    if trim then f.take l.toNat else []
  else
    (if a = ALIGNRIGHT then spaces (l - f.length) else []) ++ f ++
      (if a = ALIGNLEFT then spaces (l - f.length) else [])

/-- Spec-side description of the per-field bytes of a whole record. -/
def cellsOf (trim : Bool) : List (List Nat) → List Int → List Int → List (List Nat)
  | f :: fs, l :: ls, a :: as' => cellOf trim f l a :: cellsOf trim fs ls as'
  | _, _, _ => []

/-- The reader that shares every configuration field `Writer` has, with no
initial lines to skip (used to state the round-trip law). -/
def mirrorReader (w : Writer) : Reader :=
  { comment := w.comment, skipLines := 0, skipStart := w.skipStart,
    skipEnd := w.skipEnd, fieldLengths := w.fieldLengths,
    fieldAlign := w.fieldAlign, trimFields := w.trimFields,
    hasEOL := w.hasEOL, width := w.width, line := 0, column := 0,
    initialskipdone := true }

/-- A `Writer` whose configuration has passed `Init`: skips clamped,
non-empty positive field lengths, a materialized alignment list of
matching length holding only `ALIGNLEFT`/`ALIGNRIGHT`, and the derived
width stored. -/
def WValid (w : Writer) (al : List Int) : Prop :=
  0 ≤ w.skipStart ∧ 0 ≤ w.skipEnd ∧ w.fieldLengths ≠ [] ∧
    (∀ l ∈ w.fieldLengths, 1 ≤ l) ∧ w.fieldAlign = some al ∧
    al.length = w.fieldLengths.length ∧ (∀ a ∈ al, a = ALIGNLEFT ∨ a = ALIGNRIGHT) ∧
    (w.width : Int) = w.skipStart + w.skipEnd + w.fieldLengths.sum

end GoFixedWidth

namespace GoFixedWidth

theorem trimP_32 : trimP 32 = true := rfl

theorem dropWhile_replicate_32 (n : Nat) (f : List Nat) :
    (List.replicate n 32 ++ f).dropWhile trimP = f.dropWhile trimP := by
  induction n with
  | zero => simp
  | succ n ih => simpa [List.replicate_succ, List.dropWhile_cons, trimP] using ih

theorem trimST_replicate_left (n : Nat) (f : List Nat) :
    trimST (List.replicate n 32 ++ f) = trimST f := by
  simp [trimST, dropWhile_replicate_32]

theorem dropWhile_replicate_32_nil (n : Nat) :
    (List.replicate n 32).dropWhile trimP = [] := by
  simpa using dropWhile_replicate_32 n []

theorem trimST_replicate_right (n : Nat) (f : List Nat) :
    trimST (f ++ List.replicate n 32) = trimST f := by
  rcases hg : f.dropWhile trimP with _ | ⟨x, g⟩
  · have h1 : (f ++ List.replicate n 32).dropWhile trimP = [] := by
      rw [List.dropWhile_append, hg]
      simp [dropWhile_replicate_32_nil, trimP]
    simp [trimST, h1, hg]
  · have h1 : (f ++ List.replicate n 32).dropWhile trimP =
        (x :: g) ++ List.replicate n 32 := by
      rw [List.dropWhile_append, hg]; simp
    rw [trimST, h1, trimST, hg]
    rw [List.reverse_append, List.reverse_replicate, dropWhile_replicate_32]

theorem trimST_cellOf {f : List Nat} {l a : Int} (hfit : (f.length : Int) ≤ l)
    (ha : a = ALIGNLEFT ∨ a = ALIGNRIGHT) (trim : Bool) :
    trimST (cellOf trim f l a) = trimST f := by
  have hov : ¬ (f.length : Int) > l := not_lt.mpr hfit
  rcases ha with h | h <;>
    simp [cellOf, hov, h, ALIGNLEFT, ALIGNRIGHT, spaces,
      trimST_replicate_left, trimST_replicate_right]

theorem cellOf_length_fit {f : List Nat} {l a : Int} (hfit : (f.length : Int) ≤ l)
    (ha : a = ALIGNLEFT ∨ a = ALIGNRIGHT) (trim : Bool) :
    ((cellOf trim f l a).length : Int) = l := by
  have hov : ¬ (f.length : Int) > l := not_lt.mpr hfit
  rcases ha with h | h <;>
    · simp [cellOf, hov, h, ALIGNRIGHT, ALIGNLEFT, spaces]
      omega

end GoFixedWidth

namespace GoFixedWidth

/-- Pointwise facts about the per-field byte cells of a record whose
fields all fit: one cell per column, each cell exactly the column width,
trimming a cell recovers the trimmed field, and every cell byte is a
space or a byte of the record. -/
theorem cellsOf_facts (trim : Bool) :
    ∀ (flds : List (List Nat)) (lens al : List Int),
      flds.length = lens.length → lens.length = al.length →
      (∀ p ∈ flds.zip lens, (p.1.length : Int) ≤ p.2) →
      (∀ a ∈ al, a = ALIGNLEFT ∨ a = ALIGNRIGHT) →
      (cellsOf trim flds lens al).length = lens.length ∧
        (∀ p ∈ (cellsOf trim flds lens al).zip lens, (p.1.length : Int) = p.2) ∧
        (cellsOf trim flds lens al).map trimST = flds.map trimST ∧
        (∀ c ∈ cellsOf trim flds lens al, ∀ b ∈ c, b = 32 ∨ ∃ f ∈ flds, b ∈ f) := by
  intro flds
  induction flds with
  | nil =>
    intro lens al h1 _ _ _
    cases lens with
    | nil => simp [cellsOf]
    | cons l ls => simp at h1
  | cons f fs ih =>
    intro lens al h1 h2 hfit hal
    cases lens with
    | nil => simp at h1
    | cons l ls =>
      cases al with
      | nil => simp at h2
      | cons a as' =>
        have hf : (f.length : Int) ≤ l := hfit (f, l) (by simp)
        have ha : a = ALIGNLEFT ∨ a = ALIGNRIGHT := hal a (by simp)
        obtain ⟨ih1, ih2, ih3, ih4⟩ := ih ls as' (by simpa using h1) (by simpa using h2)
          (fun p hp => hfit p (by simp [hp]))
          (fun x hx => hal x (by simp [hx]))
        refine ⟨by simp [cellsOf, ih1], ?_, ?_, ?_⟩
        · intro p hp
          simp only [cellsOf, List.zip_cons_cons, List.mem_cons] at hp
          rcases hp with hp | hp
          · subst hp
            exact cellOf_length_fit hf ha trim
          · exact ih2 p hp
        · simp [cellsOf, trimST_cellOf hf ha trim, ih3]
        · intro c hc b hb
          simp only [cellsOf, List.mem_cons] at hc
          rcases hc with hc | hc
          · subst hc
            have hov : ¬ (f.length : Int) > l := not_lt.mpr hf
            have hb' : b = 32 ∨ b ∈ f := by
              rcases ha with h | h <;>
                simp [cellOf, hov, h, ALIGNLEFT, ALIGNRIGHT, spaces,
                  List.mem_replicate] at hb <;>
                tauto
            rcases hb' with h | h
            · exact .inl h
            · exact .inr ⟨f, by simp, h⟩
          · rcases ih4 c hc b hb with h | ⟨g, hg1, hg2⟩
            · exact .inl h
            · exact .inr ⟨g, by simp [hg1], hg2⟩

/-- The concatenated cells of a record of fitting fields occupy exactly
the sum of the column widths. -/
theorem join_length_of_zip :
    ∀ (cells : List (List Nat)) (lens : List Int),
      cells.length = lens.length →
      (∀ p ∈ cells.zip lens, (p.1.length : Int) = p.2) →
      ((cells.join).length : Int) = lens.sum := by
  intro cells
  induction cells with
  | nil =>
    intro lens h1 _
    cases lens with
    | nil => simp
    | cons l ls => simp at h1
  | cons c cs ih =>
    intro lens h1 h2
    cases lens with
    | nil => simp at h1
    | cons l ls =>
      have hc : (c.length : Int) = l := h2 (c, l) (by simp)
      have hrec := ih ls (by simpa using h1) (fun p hp => h2 p (by simp [hp]))
      have hstep : ((c :: cs).join) = c ++ cs.join := by simp [List.join]
      rw [hstep]
      push_cast [List.length_append]
      rw [hc, hrec, List.sum_cons]

end GoFixedWidth

namespace GoFixedWidth

theorem alignAt_of_drop {al : List Int} {i : Nat} {a : Int} {rest : List Int}
    (h : al.drop i = a :: rest) (o : Option (List Int)) (ho : o = some al) :
    alignAt o i = some a := by
  subst ho
  have h0 : al.get? i = some a := by
    rw [show al.get? i = (al.drop i).get? 0 by rw [List.get?_drop, Nat.add_zero], h]
    rfl
  simpa [alignAt, List.get?_eq_getElem?] using h0

theorem drop_succ_of_drop {al : List Int} {i : Nat} {a : Int} {rest : List Int}
    (h : al.drop i = a :: rest) : al.drop (i + 1) = rest := by
  have := List.tail_drop al i
  rw [h] at this
  simpa using this.symm

/-- With `TrimFields` set, the field loop of `Writer.Write` always
completes, emitting per field its truncated or padded cell. -/
theorem writeFieldsLoop_ok_trim (w : Writer) (htrim : w.trimFields = true)
    {al : List Int} (hal : w.fieldAlign = some al) :
    ∀ (fs : List (List Nat)) (ls : List Int) (i : Nat) (out : List Nat),
      fs.length = ls.length → i + fs.length ≤ al.length →
      (∀ l ∈ ls, 0 ≤ l) →
      writeFieldsLoop w fs ls i out =
        (out ++ (cellsOf true fs ls (al.drop i)).join, .ok) := by
  intro fs
  induction fs with
  | nil =>
    intro ls i out _ _ _
    simp [writeFieldsLoop, cellsOf]
  | cons f fs ih =>
    intro ls i out hlen hle hpos
    cases ls with
    | nil => simp at hlen
    | cons l ls' =>
      have hl : 0 ≤ l := hpos l (by simp)
      obtain ⟨a, rest, hdrop⟩ : ∃ a rest, al.drop i = a :: rest := by
        rcases hd : al.drop i with _ | ⟨a, rest⟩
        · have h1 : al.length - i = 0 := by
            have := congrArg List.length hd
            simpa using this
          simp at hle
          omega
        · exact ⟨a, rest, rfl⟩
      by_cases hov : (f.length : Int) > l
      · simp only [writeFieldsLoop, if_pos hov, htrim, Bool.not_true,
          Bool.false_eq_true, if_false, if_neg (not_lt.mpr hl)]
        rw [ih ls' (i + 1) (out ++ f.take l.toNat) (by simpa using hlen)
          (by simp at hle ⊢; omega) (fun x hx => hpos x (by simp [hx]))]
        rw [hdrop, drop_succ_of_drop hdrop]
        simp [cellsOf, cellOf, if_pos hov, List.join]
      · have ha : alignAt w.fieldAlign i = some a := alignAt_of_drop hdrop _ hal
        simp only [writeFieldsLoop, if_neg hov, ha]
        rw [ih ls' (i + 1) _ (by simpa using hlen)
          (by simp at hle ⊢; omega) (fun x hx => hpos x (by simp [hx]))]
        rw [hdrop, drop_succ_of_drop hdrop]
        simp [cellsOf, cellOf, if_neg hov, List.join]

end GoFixedWidth

namespace GoFixedWidth

/-- With `TrimFields` unset, the field loop stops at the first oversized
field with `ErrFieldLengthError`, having emitted only the cells of the
fields before it. -/
theorem writeFieldsLoop_firstOversize (w : Writer) (htrim : w.trimFields = false)
    {al : List Int} (hal : w.fieldAlign = some al) :
    ∀ (pre : List (List Nat)) (lpre : List Int) (post : List (List Nat))
      (lpost : List Int) (f : List Nat) (l : Int) (i : Nat) (out : List Nat),
      pre.length = lpre.length → i + pre.length < al.length + 1 →
      (∀ p ∈ pre.zip lpre, (p.1.length : Int) ≤ p.2) →
      (f.length : Int) > l →
      writeFieldsLoop w (pre ++ f :: post) (lpre ++ l :: lpost) i out =
        (out ++ (cellsOf false pre lpre (al.drop i)).join, .err .errFieldLengthError) := by
  intro pre
  induction pre with
  | nil =>
    intro lpre post lpost f l i out hlen _ _ hov
    cases lpre with
    | nil =>
      simp only [List.nil_append, writeFieldsLoop, if_pos hov, htrim]
      simp [cellsOf]
    | cons x xs => simp at hlen
  | cons g gs ih =>
    intro lpre post lpost f l i out hlen hle hfit hov
    cases lpre with
    | nil => simp at hlen
    | cons x xs =>
      have hg : (g.length : Int) ≤ x := hfit (g, x) (by simp)
      obtain ⟨a, rest, hdrop⟩ : ∃ a rest, al.drop i = a :: rest := by
        rcases hd : al.drop i with _ | ⟨a, rest⟩
        · have h1 : al.length - i = 0 := by
            have := congrArg List.length hd
            simpa using this
          simp at hle
          omega
        · exact ⟨a, rest, rfl⟩
      have ha : alignAt w.fieldAlign i = some a := alignAt_of_drop hdrop _ hal
      have hovg : ¬ (g.length : Int) > x := not_lt.mpr hg
      simp only [List.cons_append, writeFieldsLoop, List.append_eq, if_neg hovg, ha]
      rw [ih xs post lpost f l (i + 1) _ (by simpa using hlen)
        (by simp at hle ⊢; omega) (fun p hp => hfit p (by simp [hp])) hov]
      rw [hdrop, drop_succ_of_drop hdrop]
      simp [cellsOf, cellOf, if_neg hovg, List.join]

/-- Every error the field loop returns is `ErrFieldLengthError`. -/
theorem writeFieldsLoop_err_shape (w : Writer) :
    ∀ (fs : List (List Nat)) (ls : List Int) (i : Nat) (out : List Nat) (e : Err),
      (writeFieldsLoop w fs ls i out).2 = .err e → e = .errFieldLengthError := by
  intro fs
  induction fs with
  | nil => intro ls i out e h; simp [writeFieldsLoop] at h
  | cons f fs ih =>
    intro ls i out e h
    cases ls with
    | nil => simp [writeFieldsLoop] at h
    | cons l ls' =>
      by_cases hov : (f.length : Int) > l
      · by_cases ht : w.trimFields
        · by_cases hl : l < 0
          · simp [writeFieldsLoop, hov, ht, hl] at h
          · simp only [writeFieldsLoop, if_pos hov, ht, Bool.not_true,
              Bool.false_eq_true, if_false, if_neg hl] at h
            exact ih ls' (i + 1) _ e h
        · simp only [writeFieldsLoop, if_pos hov, Bool.not_eq_true', ht] at h
          simp at h
          exact h.symm
      · rcases hma : alignAt w.fieldAlign i with _ | a
        · simp [writeFieldsLoop, hov, hma] at h
        · simp only [writeFieldsLoop, if_neg hov, hma] at h
          exact ih ls' (i + 1) _ e h

/-- Every error `Writer.Write` returns is a bare `ErrFieldCount` or
`ErrFieldLengthError`; in particular it is never wrapped as a
`*ParseError` (the `Writer.error` helper is dead code). -/
theorem write_err_shape (w : Writer) (flds : List (List Nat)) (e : Err)
    (h : (Writer.Write w flds).2 = .err e) :
    e = .errFieldCount ∨ e = .errFieldLengthError := by
  unfold Writer.Write at h
  by_cases hc : flds.length ≠ w.fieldLengths.length
  · simp only [if_pos hc] at h
    simp at h
    exact .inl h.symm
  · simp only [if_neg hc] at h
    rcases hl : writeFieldsLoop w flds w.fieldLengths 0 (spaces w.skipStart) with ⟨out, res⟩
    rw [hl] at h
    cases res with
    | ok => simp at h
    | err e0 =>
      simp at h
      exact .inr (h ▸ writeFieldsLoop_err_shape w flds w.fieldLengths 0 _ e0 (by rw [hl]))
    | panic => simp at h

end GoFixedWidth

namespace GoFixedWidth

/-- Slicing a line assembled as `pre ++ cells.join ++ tail` at offset
`len(pre)` with the column widths of the cells recovers exactly the cells
(trimmed when `TrimFields` is set). -/
theorem sliceFields_join (r : Reader) :
    ∀ (lens : List Int) (cells : List (List Nat)) (pre tail : List Nat),
      cells.length = lens.length →
      (∀ p ∈ cells.zip lens, (p.1.length : Int) = p.2) →
      sliceFields r (pre ++ cells.join ++ tail) (pre.length : Int) lens =
        .ok (cells.map (fun c => if r.trimFields then trimST c else c)) := by
  intro lens
  induction lens with
  | nil =>
    intro cells pre tail hlen _
    cases cells with
    | nil => simp [sliceFields]
    | cons c cs => simp at hlen
  | cons l ls ih =>
    intro cells pre tail hlen hfit
    cases cells with
    | nil => simp at hlen
    | cons c cs =>
      have hc : (c.length : Int) = l := hfit (c, l) (by simp)
      have hc0 : (0 : Int) ≤ l := by omega
      have hT : pre ++ (c :: cs).join ++ tail = pre ++ c ++ (cs.join ++ tail) := by
        simp [List.join]
      have hb : (pre.length : Int) + l ≤ ((pre ++ (c :: cs).join ++ tail).length : Int) := by
        rw [← hc, hT]
        push_cast [List.length_append]
        omega
      have hgs : goSlice (pre ++ (c :: cs).join ++ tail) (pre.length : Int)
          ((pre.length : Int) + l) = .ok c := by
        unfold goSlice
        rw [if_pos ⟨by positivity, by omega, hb⟩]
        rw [hT]
        have h1 : ((pre.length : Int)).toNat = pre.length := by simp
        have h2 : ((pre.length : Int) + l - (pre.length : Int)).toNat = c.length := by
          omega
        rw [h1, h2, List.append_assoc, List.drop_left, List.take_left]
      unfold sliceFields
      rw [hgs]
      have hrec := ih cs (pre ++ c) tail (by simpa using hlen)
        (fun p hp => hfit p (by simp [hp]))
      have hlen2 : ((pre ++ c).length : Int) = (pre.length : Int) + l := by
        simp
        omega
      rw [hT, show (pre.length : Int) + l = ((pre ++ c).length : Int) from hlen2.symm,
        show pre ++ c ++ (cs.join ++ tail) = (pre ++ c) ++ cs.join ++ tail by
          simp [List.append_assoc]]
      rw [hrec]
      simp

end GoFixedWidth

namespace GoFixedWidth

/-- Reading a delimiter-free line of exactly `width` bytes followed by the
mode's delimiter returns the line and consumes the delimiter (modes
`none`, `cr`, `lf`). -/
theorem readLine_content (r : Reader) (content : List Nat)
    (hclean : ∀ b ∈ content, b ≠ 13 ∧ b ≠ 10)
    (hwidth : content.length = r.width) (hpos : 1 ≤ r.width) :
    (r.hasEOL = EOLNONE → readLine r content = .ok (content, [])) ∧
    (r.hasEOL = EOLCR → readLine r (content ++ [13]) = .ok (content, [])) ∧
    (r.hasEOL = EOLLF → readLine r (content ++ [10]) = .ok (content, [])) := by
  refine ⟨?_, ?_, ?_⟩
  · intro hm
    have hn : content ≠ [] := by
      intro hc
      rw [hc] at hwidth
      simp at hwidth
      omega
    unfold readLine
    rw [hm]
    simp only [EOLNONE, EOLCR, EOLLF, EOLCRLF]
    norm_num
    rw [if_neg (by omega), if_neg hn, ← hwidth, List.take_length,
      Nat.sub_self, List.drop_length]
    simp
  · intro hm
    have h13 : (13 : Nat) ∉ content := fun hc => (hclean 13 hc).1 rfl
    unfold readLine
    rw [hm]
    simp only [EOLNONE, EOLCR, EOLLF, EOLCRLF]
    norm_num
    rw [show content ++ [13] = content ++ 13 :: [] from rfl,
      splitAtByte_not_mem h13]
  · intro hm
    have h10 : (10 : Nat) ∉ content := fun hc => (hclean 10 hc).2 rfl
    unfold readLine
    rw [hm]
    simp only [EOLNONE, EOLCR, EOLLF, EOLCRLF]
    norm_num
    rw [show content ++ [10] = content ++ 10 :: [] from rfl,
      splitAtByte_not_mem h10]

end GoFixedWidth

namespace GoFixedWidth

/-- A `Writer` with `TrimFields` set and a record of the right arity
always succeeds, emitting skip spaces, the per-field cells, end spaces and
the line ending. -/
theorem write_ok_trim (w : Writer) (al : List Int)
    (hal : w.fieldAlign = some al) (hallen : al.length = w.fieldLengths.length)
    (hlensnn : ∀ l ∈ w.fieldLengths, 0 ≤ l) (htrim : w.trimFields = true)
    (flds : List (List Nat)) (hcnt : flds.length = w.fieldLengths.length) :
    Writer.Write w flds =
      (spaces w.skipStart ++ (cellsOf true flds w.fieldLengths al).join ++
        spaces w.skipEnd ++ eolBytes w.hasEOL, .ok) := by
  unfold Writer.Write
  rw [if_neg (by simp [hcnt])]
  rw [writeFieldsLoop_ok_trim w htrim hal flds w.fieldLengths 0 (spaces w.skipStart)
    hcnt (by omega) hlensnn]
  simp [List.append_assoc]

/-- C1 (corrected): the round-trip law holds only in restricted form.
With a fully initialized configuration, no comment marker, a line-ending
mode other than `crlf`, `TrimFields` set on both sides, and a record of
fitting CR/LF-free fields, `Write` succeeds and `Read` of its output under
the mirrored configuration returns the fields with leading/trailing spaces
and tabs trimmed (hence the original fields whenever they carry no
leading/trailing spaces or tabs). -/
theorem c1_roundTrip_trimmed (w : Writer) (al : List Int) (hv : WValid w al)
    (htrim : w.trimFields = true) (hcomment : w.comment = 0)
    (hmode : w.hasEOL = EOLNONE ∨ w.hasEOL = EOLCR ∨ w.hasEOL = EOLLF)
    (flds : List (List Nat)) (hcnt : flds.length = w.fieldLengths.length)
    (hfit : ∀ p ∈ flds.zip w.fieldLengths, (p.1.length : Int) ≤ p.2)
    (hclean : ∀ f ∈ flds, ∀ b ∈ f, b ≠ 13 ∧ b ≠ 10) :
    (Writer.Write w flds).2 = .ok ∧
    Reader.Read (mirrorReader w) (Writer.Write w flds).1 =
      .ok (flds.map trimST, []) := by
  obtain ⟨hss, hse, hne, hpos1, hal, hallen, ha01, hwd⟩ := hv
  have hlensnn : ∀ l ∈ w.fieldLengths, 0 ≤ l := fun l hl => by
    have := hpos1 l hl
    omega
  obtain ⟨hcl, hczip, hctrim, hcbytes⟩ :=
    cellsOf_facts true flds w.fieldLengths al hcnt hallen.symm hfit ha01
  have hwrite := write_ok_trim w al hal hallen hlensnn htrim flds hcnt
  set cells := cellsOf true flds w.fieldLengths al with hcellsdef
  set content := spaces w.skipStart ++ cells.join ++ spaces w.skipEnd with hcontdef
  -- every byte of the line is a space or a field byte, hence not CR/LF
  have hcontclean : ∀ b ∈ content, b ≠ 13 ∧ b ≠ 10 := by
    intro b hb
    rw [hcontdef] at hb
    simp only [List.mem_append, spaces, List.mem_replicate] at hb
    rcases hb with (hb | hb) | hb
    · omega
    · rw [List.mem_join] at hb
      obtain ⟨c, hc, hbc⟩ := hb
      rcases hcbytes c hc b hbc with h | ⟨f, hf, hbf⟩
      · omega
      · exact hclean f hf b hbf
    · omega
  have hjoin : ((cells.join).length : Int) = w.fieldLengths.sum :=
    join_length_of_zip cells w.fieldLengths hcl hczip
  have hsplen1 : ((spaces w.skipStart).length : Int) = w.skipStart := by
    simp [spaces, Int.toNat_of_nonneg hss]
  have hsplen2 : ((spaces w.skipEnd).length : Int) = w.skipEnd := by
    simp [spaces, Int.toNat_of_nonneg hse]
  have hclen : (content.length : Int) = (w.width : Int) := by
    rw [hcontdef, hwd]
    push_cast [List.length_append]
    push_cast at hsplen1 hsplen2 hjoin
    rw [hsplen1, hsplen2, hjoin]
    ring
  have hsum1 : (1 : Int) ≤ w.fieldLengths.sum := by
    cases hls : w.fieldLengths with
    | nil => exact absurd hls hne
    | cons x xs =>
      have hx : 1 ≤ x := hpos1 x (by rw [hls]; simp)
      have hxs : 0 ≤ xs.sum :=
        List.sum_nonneg (fun a ha => by
          have := hpos1 a (by rw [hls]; simp [ha])
          omega)
      rw [List.sum_cons]
      omega
  have hwpos : 1 ≤ w.width := by omega
  have hcontwidth : content.length = (mirrorReader w).width := by
    have h1 : (mirrorReader w).width = w.width := rfl
    omega
  have hrc := readLine_content (mirrorReader w) content hcontclean hcontwidth hwpos
  have hrl : readLine (mirrorReader w) (content ++ eolBytes w.hasEOL) =
      .ok (content, []) := by
    rcases hmode with hm | hm | hm
    · have he : eolBytes w.hasEOL = [] := by rw [hm]; rfl
      rw [he, List.append_nil]
      exact hrc.1 hm
    · have he : eolBytes w.hasEOL = [13] := by rw [hm]; rfl
      rw [he]
      exact hrc.2.1 hm
    · have he : eolBytes w.hasEOL = [10] := by rw [hm]; rfl
      rw [he]
      exact hrc.2.2 hm
  have hsf : sliceFields (mirrorReader w) content w.skipStart w.fieldLengths =
      .ok (flds.map trimST) := by
    have hj := sliceFields_join (mirrorReader w) w.fieldLengths cells
      (spaces w.skipStart) (spaces w.skipEnd) hcl hczip
    rw [hsplen1] at hj
    rw [hcontdef]
    rw [hj]
    have htr : (mirrorReader w).trimFields = true := htrim
    simp [htr, hctrim]
  have hread : Reader.Read (mirrorReader w) (content ++ eolBytes w.hasEOL) =
      .ok (flds.map trimST, []) := by
    unfold Reader.Read
    have hskip : (mirrorReader w).initialskipdone = true := rfl
    rw [if_pos hskip]
    unfold parseRecord
    rw [hrl]
    dsimp only
    have hac : afterComment (mirrorReader w) content [] = .ok (content, []) := by
      unfold afterComment
      rw [if_neg (by simp [mirrorReader, hcomment])]
    rw [hac]
    dsimp only
    unfold processLine
    rw [if_neg (by omega)]
    have hscan : content.any (fun v => v = 13 || v = 10) = false := by
      rw [List.any_eq_false]
      intro b hb
      have := hcontclean b hb
      simp [this.1, this.2]
    rw [if_neg (by rw [hscan]; simp)]
    have hms : (mirrorReader w).skipStart = w.skipStart := rfl
    have hml : (mirrorReader w).fieldLengths = w.fieldLengths := rfl
    rw [hms, hml, hsf]
  refine ⟨by rw [hwrite], ?_⟩
  rw [hwrite]
  exact hread

end GoFixedWidth

namespace GoFixedWidth

theorem isEOFMsg_iff {e : Err} : isEOFMsg e = true ↔ e = .eof := by
  cases e <;> simp [isEOFMsg]

theorem processLine_ok {r : Reader} {tmp s s2 : List Nat} {fs : List (List Nat)}
    (h : processLine r tmp s = .ok (fs, s2)) : s2 = s ∧ tmp.length = r.width := by
  unfold processLine at h
  by_cases h1 : tmp.length ≠ r.width
  · rw [if_pos h1] at h; simp at h
  · rw [if_neg h1] at h
    push_neg at h1
    by_cases h2 : tmp.any (fun v => v = 13 || v = 10) = true
    · rw [if_pos h2] at h; simp at h
    · rw [if_neg h2] at h
      cases hsf : sliceFields r tmp r.skipStart r.fieldLengths <;> rw [hsf] at h <;>
        simp at h
      exact ⟨h.2.symm, h1⟩

/-- A successful `readLine` in a delimiter mode always consumes at least
the delimiter byte. -/
theorem readLine_consume_mode {r : Reader} {s tmp s1 : List Nat}
    (h : readLine r s = .ok (tmp, s1)) (hm : r.hasEOL ≠ EOLNONE) :
    s1.length < s.length := by
  unfold readLine at h
  by_cases h1 : r.hasEOL = EOLCR
  · simp only [h1, if_true] at h
    rcases hsp : splitAtByte 13 s with _ | ⟨pre, post⟩ <;> rw [hsp] at h
    · simp at h
    · simp at h
      have := splitAtByte_eq_some hsp
      subst this
      simp [← h.2]
      omega
  · simp only [h1, if_false] at h
    by_cases h2 : r.hasEOL = EOLLF
    · simp only [h2, if_true] at h
      rcases hsp : splitAtByte 10 s with _ | ⟨pre, post⟩ <;> rw [hsp] at h
      · simp at h
      · simp at h
        have := splitAtByte_eq_some hsp
        subst this
        simp [← h.2]
        omega
    · simp only [h2, if_false] at h
      by_cases h3 : r.hasEOL = EOLCRLF
      · simp only [h3, if_true] at h
        rcases hsp : splitAtByte 13 s with _ | ⟨pre, post⟩ <;> rw [hsp] at h
        · simp at h
        · rcases post with _ | ⟨b, rest⟩
          · simp at h
          · by_cases hb : b = 10
            · simp [hb] at h
              have := splitAtByte_eq_some hsp
              subst this
              simp [← h.2]
              omega
            · simp [hb] at h
      · simp only [h3, if_false] at h
        rw [if_neg hm] at h
        simp at h

/-- The comment loop strictly consumes stream bytes before succeeding. -/
theorem commentLoop_consume (r : Reader) :
    ∀ (n : Nat) (s tmp s1 : List Nat), s.length ≤ n →
      commentLoop r s = .ok (tmp, s1) → s1.length < s.length := by
  intro n
  induction n with
  | zero =>
    intro s tmp s1 hn h
    rw [commentLoop] at h
    cases hrl : readLine r s with
    | err e => rw [hrl] at h; simp at h
    | panic => rw [hrl] at h; simp at h
    | ok ts =>
      obtain ⟨t, s2⟩ := ts
      rw [hrl] at h
      dsimp only at h
      by_cases ht : t = []
      · rw [dif_pos ht] at h; simp at h
      · rw [dif_neg ht] at h
        have hlt := readLine_consume hrl ht
        omega
  | succ n ih =>
    intro s tmp s1 hn h
    rw [commentLoop] at h
    cases hrl : readLine r s with
    | err e => rw [hrl] at h; simp at h
    | panic => rw [hrl] at h; simp at h
    | ok ts =>
      obtain ⟨t, s2⟩ := ts
      rw [hrl] at h
      dsimp only at h
      by_cases ht : t = []
      · rw [dif_pos ht] at h; simp at h
      · rw [dif_neg ht] at h
        have hlt := readLine_consume hrl ht
        by_cases hh : t.head! = r.comment
        · rw [if_pos hh] at h
          have := ih s2 tmp s1 (by omega) h
          omega
        · rw [if_neg hh] at h
          simp at h
          obtain ⟨h1, h2⟩ := h
          subst h2
          omega

/-- With a positive stored width or a delimiter mode, every successful
`parseRecord` strictly consumes stream bytes (this is what makes the
`ReadAll` loop terminate). -/
theorem parseRecord_consume (r : Reader) (hcond : 1 ≤ r.width ∨ r.hasEOL ≠ EOLNONE)
    {s s2 : List Nat} {rec : List (List Nat)}
    (h : parseRecord r s = .ok (rec, s2)) : s2.length < s.length := by
  unfold parseRecord at h
  cases hrl : readLine r s with
  | err e => rw [hrl] at h; simp at h
  | panic => rw [hrl] at h; simp at h
  | ok ts =>
    obtain ⟨tmp, s1⟩ := ts
    rw [hrl] at h
    dsimp only at h
    cases hac : afterComment r tmp s1 with
    | err e => rw [hac] at h; simp at h
    | panic => rw [hac] at h; simp at h
    | ok ts2 =>
      obtain ⟨tmp2, s1'⟩ := ts2
      rw [hac] at h
      dsimp only at h
      obtain ⟨hs2, hlen⟩ := processLine_ok h
      subst hs2
      unfold afterComment at hac
      by_cases hc : r.comment ≠ 0
      · rw [if_pos hc] at hac
        by_cases ht : tmp = []
        · rw [if_pos ht] at hac; simp at hac
        · rw [if_neg ht] at hac
          by_cases hh : tmp.head! = r.comment
          · rw [if_pos hh] at hac
            have h1 := commentLoopConsume' hac
            have h2 := readLine_le hrl
            omega
          · rw [if_neg hh] at hac
            simp at hac
            obtain ⟨hac1, hac2⟩ := hac
            subst hac2
            have := readLine_consume hrl ht
            omega
      · rw [if_neg hc] at hac
        simp at hac
        obtain ⟨he1, he2⟩ := hac
        subst he2
        rcases hcond with hw | hm
        · have htne : tmp ≠ [] := by
            intro hx
            rw [he1] at hx
            rw [hx] at hlen
            simp at hlen
            omega
          have := readLine_consume hrl htne
          omega
        · have := readLine_consume_mode hrl hm
          omega
where
  commentLoopConsume' {s1 tmp2 s1' : List Nat}
      (hac : commentLoop r s1 = .ok (tmp2, s1')) : s1'.length < s1.length :=
    commentLoop_consume r s1.length s1 tmp2 s1' le_rfl hac

end GoFixedWidth

namespace GoFixedWidth

/-- The first `parseRecord` failure hit when parsing records one after the
other from `s` (within `fuel` iterations); `none` when no failure (the
loop diverges or panics) is hit. -/
def firstFailure (r : Reader) : Nat → List Nat → Option Err
  | 0, _ => none
  | fuel + 1, s =>
    match parseRecord r s with
    | .err e => some e
    | .panic => none
    | .ok (_, s1) => firstFailure r fuel s1

/-- The records parsed before the first `parseRecord` failure. -/
def recordsBeforeFailure (r : Reader) : Nat → List Nat → List (List (List Nat))
  | 0, _ => []
  | fuel + 1, s =>
    match parseRecord r s with
    | .ok (rec, s1) => rec :: recordsBeforeFailure r fuel s1
    | _ => []

theorem readAllLoop_trace (r : Reader) (hcond : 1 ≤ r.width ∨ r.hasEOL ≠ EOLNONE) :
    ∀ (fuel : Nat) (s : List Nat) (acc : List (List (List Nat))) (e : Err),
      s.length < fuel → firstFailure r fuel s = some e →
      readAllLoop r fuel s acc =
        .done (acc.reverse ++ recordsBeforeFailure r fuel s)
          (if isEOFMsg e then none else some e) := by
  intro fuel
  induction fuel with
  | zero => intro s acc e h; omega
  | succ n ih =>
    intro s acc e hlt hff
    unfold firstFailure at hff
    unfold readAllLoop recordsBeforeFailure
    cases hp : parseRecord r s with
    | err e0 =>
      rw [hp] at hff
      simp at hff
      subst hff
      simp
    | panic => rw [hp] at hff; simp at hff
    | ok ts =>
      obtain ⟨rec, s1⟩ := ts
      rw [hp] at hff
      dsimp only at hff ⊢
      have hcons := parseRecord_consume r hcond hp
      rw [ih s1 (rec :: acc) e (by omega) hff]
      simp

end GoFixedWidth

namespace GoFixedWidth

/-- Sample configurations used by the concrete theorems below.  Each is a
post-`Init` state reachable in Go (`width` holds the derived width). -/
def rCrlf1 : Reader :=
  { fieldLengths := [1], hasEOL := EOLCRLF, width := 1, initialskipdone := true }

def wCrlf1 : Writer :=
  { fieldLengths := [1], fieldAlign := some [ALIGNLEFT], hasEOL := EOLCRLF,
    trimFields := true, width := 1 }

def wCr2 : Writer :=
  { fieldLengths := [2], fieldAlign := some [ALIGNLEFT], hasEOL := EOLCR, width := 2 }

def wCm1 : Writer :=
  { comment := 35, fieldLengths := [1], fieldAlign := some [ALIGNLEFT],
    hasEOL := EOLCR, trimFields := true, width := 1 }

def wRT : Writer :=
  { fieldLengths := [2, 3], fieldAlign := some [ALIGNLEFT, ALIGNRIGHT],
    hasEOL := EOLCR, trimFields := true, width := 5 }

def rCr1 : Reader :=
  { fieldLengths := [1], hasEOL := EOLCR, width := 1, initialskipdone := true }

def wOv : Writer :=
  { skipStart := 1, fieldLengths := [2, 1], fieldAlign := some [ALIGNLEFT, ALIGNLEFT],
    hasEOL := EOLCR, width := 4 }

def rCm1 : Reader :=
  { comment := 35, fieldLengths := [1], hasEOL := EOLCR, width := 1,
    initialskipdone := true }

def rLoneCr : Reader := { comment := 35, hasEOL := EOLCR, initialskipdone := true }

def wCom4 : Writer :=
  { comment := 35, fieldLengths := [4], fieldAlign := some [ALIGNLEFT],
    hasEOL := EOLCR, width := 4 }

def wComZ : Writer := { NewWriter with comment := 35 }

/-- C1 (counterexample): the round-trip law fails as stated.  In `crlf`
mode the written record `["a"]` reads back as `IncorrectLineWidth` (the
reader keeps the CR in the raw line); with `trimFields` unset the written
padding sticks to the field (`["a"]` reads back as `["a "]`); with a
comment marker `'#'` the record `["#"]` is swallowed as a comment line and
reading fails with EOF. -/
theorem c1_roundTrip_counterexample :
    (Writer.Write wCrlf1 [[97]]).2 = .ok ∧
    Reader.Read (mirrorReader wCrlf1) (Writer.Write wCrlf1 [[97]]).1 =
      .err .errIncorrectLineWidth ∧
    Reader.Read (mirrorReader wCr2) (Writer.Write wCr2 [[97]]).1 =
      .ok ([[97, 32]], []) ∧
    Reader.Read (mirrorReader wCm1) (Writer.Write wCm1 [[35]]).1 = .err .eof := by
  refine ⟨rfl, rfl, rfl, ?_⟩
  show Reader.Read (mirrorReader wCm1) [35, 13] = .err .eof
  unfold Reader.Read
  rw [if_pos (show (mirrorReader wCm1).initialskipdone = true from rfl)]
  unfold parseRecord
  have h1 : readLine (mirrorReader wCm1) [35, 13] = .ok ([35], []) := by decide
  rw [h1]
  dsimp only
  unfold afterComment
  rw [if_pos (by decide), if_neg (by decide), if_pos (by decide)]
  rw [commentLoop]
  have h2 : readLine (mirrorReader wCm1) [] = .err .eof := by decide
  rw [h2]

/-- C1 (witness): round trip at a concrete two-column record. -/
theorem c1_roundTrip_trimmed_witness :
    (Writer.Write wRT [[97], [98, 99]]).2 = .ok ∧
    Reader.Read (mirrorReader wRT) (Writer.Write wRT [[97], [98, 99]]).1 =
      .ok ([[97], [98, 99]].map trimST, []) :=
  c1_roundTrip_trimmed wRT [ALIGNLEFT, ALIGNRIGHT] (by unfold WValid; decide) rfl rfl
    (Or.inr (Or.inl rfl)) [[97], [98, 99]] rfl (by decide) (by decide)

/-- C2 (counterexample): with empty `FieldLengths` the calls do not fail
with `ErrNoFields`: `Writer.Write` on the `NewWriter` state and an empty
record succeeds and emits the CR line ending, and `Reader.Read` on the
`NewReader` state consumes a line and returns `ErrIncorrectLineWidth`. -/
theorem c2_noFields_counterexample :
    Writer.Write NewWriter [] = ([13], WRes.ok) ∧
    Reader.Read NewReader [97, 13, 10] = .err .errIncorrectLineWidth :=
  ⟨rfl, rfl⟩

/-- C2 (corrected): only `Reader.Init` and `Writer.Init` perform the
empty-field-list check, failing with `ErrNoFields` (without touching any
stream); the read and write calls themselves never run this check. -/
theorem c2_init_errNoFields (r : Reader) (w : Writer)
    (hr : r.fieldLengths = []) (hw : w.fieldLengths = []) :
    (Reader.Init r).2 = some .errNoFields ∧
    (Writer.Init w).2 = some .errNoFields := by
  constructor
  · simp [Reader.Init, hr]
  · simp [Writer.Init, hw]

/-- C2 (witness): the constructor-time `Init` calls of `NewReader` and
`NewWriter` fail with `ErrNoFields`. -/
theorem c2_init_errNoFields_witness :
    (Reader.Init { hasEOL := EOLCRLF }).2 = some .errNoFields ∧
    (Writer.Init { hasEOL := EOLCR }).2 = some .errNoFields :=
  c2_init_errNoFields _ _ rfl rfl

/-- C3 (code bug): in `crlf` mode `readLine` consumes the CR and the
following LF but returns the raw line *including* the CR byte, so a
well-formed line `"a\r\n"` under `FieldLengths=[1]` fails with
`ErrIncorrectLineWidth` instead of parsing as `["a"]`; when the byte after
the CR is not LF the malformed-line-ending error is returned as the spec
says. -/
theorem c3_crlf_retains_cr :
    readLine rCrlf1 [97, 13, 10] = .ok ([97, 13], []) ∧
    Reader.Read rCrlf1 [97, 13, 10] = .err .errIncorrectLineWidth ∧
    readLine rCrlf1 [97, 13, 65] = .err .crlfNotFound :=
  ⟨rfl, rfl, rfl⟩

/-- C4 (confirmed): once the initial line skip is done, if the first
`parseRecord` failure of the record loop is EOF, `ReadAll` returns success
with all records gathered so far; any other failure is returned
immediately together with the partial record list.  The width/mode
hypothesis rules out the zero-width `none`-mode configuration on which the
Go loop does not terminate. -/
theorem c4_readAll_eof_success (r : Reader) (hd : r.initialskipdone = true)
    (hcond : 1 ≤ r.width ∨ r.hasEOL ≠ EOLNONE) (s : List Nat) (e : Err)
    (hff : firstFailure r (s.length + 1) s = some e) :
    (e = .eof → Reader.ReadAll r s =
      .done (recordsBeforeFailure r (s.length + 1) s) none) ∧
    (e ≠ .eof → Reader.ReadAll r s =
      .done (recordsBeforeFailure r (s.length + 1) s) (some e)) := by
  have h := readAllLoop_trace r hcond (s.length + 1) s [] e (by omega) hff
  unfold Reader.ReadAll
  rw [if_pos hd]
  constructor
  · intro he
    subst he
    rw [h]
    simp [isEOFMsg]
  · intro he
    have hmsg : isEOFMsg e = false := by
      cases e
      case eof => exact absurd rfl he
      all_goals rfl
    rw [h, hmsg]
    simp

/-- C4 (witness): a one-record stream ending at EOF. -/
theorem c4_readAll_eof_success_witness :
    Reader.ReadAll rCr1 [97, 13] = .done [[[97]]] none :=
  (c4_readAll_eof_success rCr1 rfl (Or.inl (by decide)) [97, 13] .eof
    (by decide)).1 rfl

end GoFixedWidth

namespace GoFixedWidth

/-- C5 (confirmed): with `TrimFields` unset, a record whose `j`-th field
overflows its column yields `ErrFieldLengthError` with only the cells of
the earlier (fitting) fields emitted — nothing further for that record;
with `TrimFields` set the same record is written completely, the oversized
field truncated to exactly its column width. -/
theorem c5_write_oversize (w : Writer) (al : List Int) (hv : WValid w al)
    (htrim : w.trimFields = false)
    (pre post : List (List Nat)) (f : List Nat) (lpre lpost : List Int) (l : Int)
    (hlens : w.fieldLengths = lpre ++ l :: lpost)
    (hlen : pre.length = lpre.length)
    (hfitpre : ∀ p ∈ pre.zip lpre, (p.1.length : Int) ≤ p.2)
    (hov : (f.length : Int) > l)
    (hcnt : (pre ++ f :: post).length = w.fieldLengths.length) :
    Writer.Write w (pre ++ f :: post) =
      (spaces w.skipStart ++ (cellsOf false pre lpre al).join,
        .err .errFieldLengthError) ∧
    Writer.Write { w with trimFields := true } (pre ++ f :: post) =
      (spaces w.skipStart ++
        (cellsOf true (pre ++ f :: post) w.fieldLengths al).join ++
        spaces w.skipEnd ++ eolBytes w.hasEOL, .ok) := by
  obtain ⟨hss, hse, hne, hpos1, hal, hallen, ha01, hwd⟩ := hv
  have hlensnn : ∀ x ∈ w.fieldLengths, 0 ≤ x := fun x hx => by
    have := hpos1 x hx
    omega
  have hlentot : w.fieldLengths.length = lpre.length + lpost.length + 1 := by
    rw [hlens]
    simp
    omega
  constructor
  · unfold Writer.Write
    rw [if_neg (by simp [hcnt])]
    rw [hlens]
    rw [writeFieldsLoop_firstOversize w htrim hal pre lpre post lpost f l 0
      (spaces w.skipStart) hlen (by omega) hfitpre hov]
    simp
  · have h := write_ok_trim { w with trimFields := true } al hal hallen hlensnn rfl
      (pre ++ f :: post) hcnt
    exact h

/-- C5 (witness): columns `[2,1]` with `skipStart = 1`: the record
`["a","bc"]` fails after emitting the skip space and the first cell when
trimming is off, and truncates `"bc"` to `"b"` when trimming is on. -/
theorem c5_write_oversize_witness :
    Writer.Write wOv [[97], [98, 99]] = ([32, 97, 32], .err .errFieldLengthError) ∧
    Writer.Write { wOv with trimFields := true } [[97], [98, 99]] =
      ([32, 97, 32, 98, 13], .ok) := by
  have h := c5_write_oversize wOv [ALIGNLEFT, ALIGNLEFT] (by unfold WValid; decide)
    rfl [[97]] [] [98, 99] [2] [] 1 rfl rfl (by decide) (by decide) rfl
  obtain ⟨h1, h2⟩ := h
  constructor
  · show Writer.Write wOv ([[97]] ++ [98, 99] :: []) = _
    rw [h1]
    decide
  · show Writer.Write { wOv with trimFields := true } ([[97]] ++ [98, 99] :: []) = _
    rw [h2]
    decide

/-- C6 (counterexample): failures are mostly not wrapped: `Reader.Read`
returns the bare `ErrIncorrectLineWidth` of `parseRecord`, and
`Writer.Write` returns the bare `ErrFieldLengthError`, neither carried in
a `ParseError`. -/
theorem c6_unwrapped_counterexample :
    Reader.Read rCr1 [13] = .err .errIncorrectLineWidth ∧
    (Writer.Write wCr2 [[97, 98, 99]]).2 = .err .errFieldLengthError :=
  ⟨rfl, rfl⟩

/-- C6 (corrected): only `ReadRows` wraps record failures as a
`ParseError`, carrying the reader's never-incremented `line`/`column`
counters (still at their initial values); `Read` returns `parseRecord`
failures unwrapped, and every `Writer.Write` failure is a bare
`ErrFieldCount` or `ErrFieldLengthError`. -/
theorem c6_wrap_policy (r : Reader) (s : List Nat) (e : Err)
    (hd : r.initialskipdone = true) (hp : parseRecord r s = .err e)
    (w : Writer) (flds : List (List Nat)) (e' : Err)
    (hw : (Writer.Write w flds).2 = .err e') :
    Reader.Read r s = .err e ∧
    Reader.ReadRows r 1 s = .done [] (some (.parseErr r.line r.column e)) ∧
    (e' = .errFieldCount ∨ e' = .errFieldLengthError) := by
  refine ⟨?_, ?_, write_err_shape w flds e' hw⟩
  · unfold Reader.Read
    rw [if_pos hd, hp]
  · unfold Reader.ReadRows
    rw [if_pos hd]
    have h1 : (1 : Int).toNat = 1 := rfl
    rw [h1]
    unfold readRowsLoop
    rw [hp]
    rfl

/-- C6 (witness): a short line and an oversized field at concrete
configurations. -/
theorem c6_wrap_policy_witness :
    Reader.Read rCr1 [13] = .err .errIncorrectLineWidth ∧
    Reader.ReadRows rCr1 1 [13] =
      .done [] (some (.parseErr 0 0 .errIncorrectLineWidth)) ∧
    (Err.errFieldLengthError = .errFieldCount ∨
      Err.errFieldLengthError = .errFieldLengthError) :=
  c6_wrap_policy rCr1 [13] .errIncorrectLineWidth rfl rfl wCr2 [[97, 98, 99]]
    .errFieldLengthError rfl

/-- C7 (confirmed): a raw line that starts with the configured comment
rune is fully skipped: parsing from the stream that begins with it is the
same as parsing from the stream just after it, so (by iterating) no
comment-marked line ever contributes a record. -/
theorem c7_comment_skipped (r : Reader) (s tmp s' : List Nat)
    (hc : r.comment ≠ 0) (hrl : readLine r s = .ok (tmp, s'))
    (hne : tmp ≠ []) (hhead : tmp.head! = r.comment) :
    parseRecord r s = parseRecord r s' ∧
    (r.initialskipdone = true → Reader.Read r s = Reader.Read r s') := by
  have key : parseRecord r s = parseRecord r s' := by
    unfold parseRecord
    rw [hrl]
    dsimp only
    unfold afterComment
    rw [if_pos hc, if_neg hne, if_pos hhead]
    rw [commentLoop]
    cases hrl2 : readLine r s' with
    | err e => rfl
    | panic => rfl
    | ok ts =>
      obtain ⟨t2, s2⟩ := ts
      dsimp only
      rw [if_pos hc]
      rfl
  refine ⟨key, fun hd => ?_⟩
  unfold Reader.Read
  rw [if_pos hd, if_pos hd]
  exact key

/-- C7 (witness): a comment line `"#\r"` before the data line `"a\r"`. -/
theorem c7_comment_skipped_witness :
    parseRecord rCm1 [35, 13, 97, 13] = parseRecord rCm1 [97, 13] ∧
    (rCm1.initialskipdone = true →
      Reader.Read rCm1 [35, 13, 97, 13] = Reader.Read rCm1 [97, 13]) :=
  c7_comment_skipped rCm1 [35, 13, 97, 13] [35] [97, 13] (by decide) (by decide)
    (by decide) (by decide)

end GoFixedWidth

namespace GoFixedWidth

/-- C8 (counterexample): `WriteComment` is not total as claimed: on a
writer whose derived width is 0 (the `NewWriter` state with a comment rune
set), the truncation slice `line[0 : w.width-1]` has bound `-1` and
panics, after the marker byte has already been emitted. -/
theorem c8_writeComment_width0_panic :
    Writer.WriteComment wComZ [120] = ([35], .panic) := rfl

/-- C8 (corrected): for a writer whose derived width is at least 1,
`WriteComment` behaves as specified: success without output when no
comment rune is configured; otherwise the marker byte, then the text
truncated to `width-1` bytes when longer, else padded with spaces to
exactly `width-1` bytes, then the line ending.  When the derived width is
0 and a marker is set the call panics instead. -/
theorem c8_writeComment_spec (w : Writer) (text : List Nat) (hwd : 1 ≤ w.width) :
    (w.comment = 0 → Writer.WriteComment w text = ([], .ok)) ∧
    (w.comment ≠ 0 → Writer.WriteComment w text =
      (w.comment ::
        ((if w.width - 1 < text.length then text.take (w.width - 1)
          else text ++ List.replicate (w.width - 1 - text.length) 32) ++
          eolBytes w.hasEOL), .ok)) := by
  constructor
  · intro hc
    unfold Writer.WriteComment
    rw [if_neg (by simp [hc])]
  · intro hc
    unfold Writer.WriteComment
    rw [if_pos hc]
    by_cases hlong : (text.length : Int) + 1 > (w.width : Int)
    · rw [if_pos hlong, if_neg (by omega : ¬ (w.width : Int) - 1 < 0)]
      rw [if_pos (by omega : w.width - 1 < text.length)]
      simp
    · rw [if_neg hlong]
      rw [if_neg (by omega : ¬ w.width - 1 < text.length)]
      by_cases hpad : (text.length : Int) + 1 < (w.width : Int)
      · rw [if_pos hpad]
        have hcast : ((w.width : Int) - text.length - 1).toNat =
            w.width - 1 - text.length := by omega
        simp [spaces, hcast]
      · rw [if_neg hpad]
        have hz : w.width - 1 - text.length = 0 := by omega
        simp [hz]

/-- C8 (witness): marker `'#'`, width 4, text `"hi"` padded to 3 bytes
plus the CR line ending. -/
theorem c8_writeComment_spec_witness :
    Writer.WriteComment wCom4 [104, 105] = ([35, 104, 105, 32, 13], .ok) := by
  have h := (c8_writeComment_spec wCom4 [104, 105] (by decide)).2 (by decide)
  rw [h]
  decide

/-- C9 (confirmed): `Writer.Write` reads `FieldAlign[i]` for every
fitting field with no bounds check, so a writer whose `FieldAlign` is
`nil` — such as the `NewWriter` state, whose constructor `Init` aborts on
the empty `FieldLengths` before materializing `FieldAlign`, later given a
non-empty `FieldLengths` without another `Init` — panics on the first
fitting field instead of returning an error. -/
theorem c9_write_align_panic (w : Writer) (hal : w.fieldAlign = none)
    (f : List Nat) (fs : List (List Nat)) (l : Int) (ls : List Int)
    (hlens : w.fieldLengths = l :: ls)
    (hcnt : (f :: fs).length = w.fieldLengths.length)
    (hfit : (f.length : Int) ≤ l) :
    Writer.Write w (f :: fs) = (spaces w.skipStart, .panic) := by
  unfold Writer.Write
  rw [if_neg (by simp [hcnt])]
  rw [hlens]
  unfold writeFieldsLoop
  rw [if_neg (not_lt.mpr hfit)]
  have hax : alignAt w.fieldAlign 0 = none := by simp [alignAt, hal]
  rw [hax]

/-- C9 (witness): `NewWriter` (nil `FieldAlign`), `FieldLengths := [3]`,
record `["a"]`. -/
theorem c9_write_align_panic_witness :
    Writer.Write { NewWriter with fieldLengths := [3] } [[97]] =
      ([], WRes.panic) :=
  c9_write_align_panic { NewWriter with fieldLengths := [3] } rfl [97] [] 3 []
    rfl rfl (by decide)

/-- C10 (confirmed): with a comment rune configured, `parseRecord` reads
`tmp[0]` without an emptiness check; in `cr` mode a stream starting with a
lone CR yields an empty raw line, and `Read` panics with an
index-out-of-range instead of returning an error. -/
theorem c10_lone_cr_panics (r : Reader) (hc : r.comment ≠ 0)
    (he : r.hasEOL = EOLCR) (hd : r.initialskipdone = true) (rest : List Nat) :
    Reader.Read r (13 :: rest) = .panic := by
  unfold Reader.Read
  rw [if_pos hd]
  unfold parseRecord
  have hrl : readLine r (13 :: rest) = .ok ([], rest) := by
    unfold readLine
    rw [he]
    norm_num [EOLCR, EOLLF, EOLCRLF, EOLNONE, splitAtByte]
  rw [hrl]
  dsimp only
  unfold afterComment
  rw [if_pos hc]
  simp

/-- C10 (witness): marker `'#'`, `cr` mode, stream `"\r"`. -/
theorem c10_lone_cr_panics_witness : Reader.Read rLoneCr [13] = .panic :=
  c10_lone_cr_panics rLoneCr (by decide) rfl rfl []

end GoFixedWidth
